import Mathlib

/-!
Shallow embedding of the monthly backup scheduler in `src/discord-backup.py`.

The embedding covers the parts of the program the verified claims are about:

* the pure month arithmetic (`parse_month`, `generate_months_to_backup`,
  lines 185-237 of the source);
* the completion ledger `MonthlyBackupTracker` with its read-merge-write
  persistence (`_save_metadata`, `mark_month_completed`, `set_last_attempt`,
  lines 118-176);
* the per-month export step `CommandRunner._export_month` (lines 318-419) and
  the per-guild scheduler loop `CommandRunner.export` (lines 252-316).

Modelling conventions:

* Python strings are Lean `String`s; where the source formats integers with
  f-strings (`f"{year:04d}-{month:02d}"`) we model the zero-padded decimal
  rendering with an explicit digit function (`natDigitsAux`), and where it
  splits/parses (`month_str.split('-')`, `int(...)`) we model the split and
  decimal parse on the character list (`splitOnChar`, `charsToNat?`).
  These functions are written with structural recursion (an explicit fuel
  argument bounded by the number itself) so that they evaluate by kernel
  reduction; fuel `n + 1` always suffices because the recursion divides by 10.
* Timestamps (`datetime.now(timezone.utc)` and the ISO strings stored in the
  ledger) are modelled as integer seconds (`ℤ`).  The source compares
  `(now - last).total_seconds() / 3600 < guild['throttleHours']` in real
  (float) arithmetic; for integer-second timestamps this inequality is exactly
  equivalent to `now - last < throttleHours * 3600` (multiply both sides by
  `3600 > 0`), which is the kernel-computable form used in `isThrottled`.
  The division form is recovered, over `ℚ`, in the throttle theorem.
* The filesystem and the external DiscordChatExporter subprocess are modelled
  by a per-guild environment `GuildEnv` of boolean observations per month
  (marker present, directory present/non-empty, mkdir success, invoker exit
  status, marker-write success).
* The ledger's backing JSON file is a partial map from top-level keys to
  values; keys other than the two owned by the tracker hold opaque values of
  a type parameter `V` (`StoreVal.ext`).
-/

/-! ### Decimal rendering and parsing of month identifiers -/

/-- Decimal digits of `n`, most significant first, by repeated division by 10.
`fuel` is a structural-termination bound; `n < fuel` always holds at every
call site (the top-level call uses `n + 1`), and the recursion calls
`n / 10 < n` for `n ≥ 10`, so the fuel is never exhausted. -/
def natDigitsAux : Nat → Nat → List Char
  | 0, _ => []
  | fuel + 1, n =>
    if n < 10 then [Nat.digitChar n]
    else natDigitsAux fuel (n / 10) ++ [Nat.digitChar (n % 10)]

/-- Left-pad a digit string with `'0'` to width `w`: Python's `f"{n:0wd}"`. -/
def padZeros (w : Nat) (cs : List Char) : List Char :=
  List.replicate (w - cs.length) '0' ++ cs

/-- The canonical `YYYY-MM` rendering `f"{year:04d}-{month:02d}"`
(source line 226). -/
def format_month (y m : Nat) : String :=
  ⟨padZeros 4 (natDigitsAux (y + 1) y) ++ '-' :: padZeros 2 (natDigitsAux (m + 1) m)⟩

/-- Numeric value of a digit string (each char taken as `code point - 48`). -/
def digitsVal (cs : List Char) : Nat :=
  cs.foldl (fun a c => a * 10 + (c.toNat - 48)) 0

/-- Python `int(s)` on the strings produced by splitting a month identifier:
succeeds on non-empty all-digit strings (leading zeros allowed), fails —
`ValueError`, modelled as `none` — otherwise. -/
def charsToNat? (cs : List Char) : Option Nat :=
  if cs ≠ [] ∧ cs.all Char.isDigit then some (digitsVal cs) else none

/-- Python `str.split(sep)` for a one-character separator, on character
lists: splits at every occurrence of `sep`.  The result is always
non-empty; the inner `match` default is unreachable. -/
def splitOnChar (sep : Char) : List Char → List (List Char)
  | [] => [[]]
  | c :: rest =>
    if c = sep then [] :: splitOnChar sep rest
    else
      match splitOnChar sep rest with
      | [] => [[c]]
      | g :: gs => (c :: g) :: gs

/-- `parse_month` (source lines 185-188): split on `'-'` and convert both
parts with `int`.  Python raises `ValueError` when the split does not give
exactly two parts or a part is not numeric; we return `none` there. -/
def parse_month (s : String) : Option (Nat × Nat) :=
  match (splitOnChar '-' s.data).map charsToNat? with
  | [some y, some m] => some (y, m)
  | _ => none

/-! ### Month enumeration (`generate_months_to_backup`, lines 213-237) -/

/-- The body of the `while` loop of `generate_months_to_backup`: starting
from `(y, m)`, while `(y, m) < (cy, cm)` lexicographically, emit
`f"{y:04d}-{m:02d}"` unless it is in `completed`, then step to the next
month (December rolls over to January).

`fuel` is a structural-termination bound.  The extra conjunct `m ≤ 12` in
the guard is part of that bound: for `m ≥ 13` the Python loop never reaches
`month == 12` again and runs forever, so no terminating function can agree
with it there; every valid month identifier has `m ≤ 12` and never reaches
this case.  For `m ≤ 12` the quantity `cy * 13 + cm - (y * 13 + m)` strictly
decreases at each iteration, so fuel equal to it (as supplied by
`generate_months_to_backup`) always suffices. -/
def genFromAux (cy cm : Nat) : Nat → Nat → Nat → List String → List String
  | 0, _, _, _ => []
  | fuel + 1, y, m, completed =>
    if (y < cy ∨ (y = cy ∧ m < cm)) ∧ m ≤ 12 then
      let ms := format_month y m
      let rest :=
        if m = 12 then genFromAux cy cm fuel (y + 1) 1 completed
        else genFromAux cy cm fuel y (m + 1) completed
      if ms ∈ completed then rest else ms :: rest
    else []

/-- `generate_months_to_backup(start_month, current_month, completed_months)`
(source lines 213-237): parse both bounds, then enumerate every month from
`start_month` inclusive to `current_month` exclusive, skipping identifiers
present in `completed`.  `none` models the `ValueError` Python raises on an
unparseable bound (guild validation rules this out for real configs). -/
def generate_months_to_backup (start current : String) (completed : List String) :
    Option (List String) :=
  match parse_month start, parse_month current with
  | some (sy, sm), some (cy, cm) =>
    some (genFromAux cy cm (cy * 13 + cm - (sy * 13 + sm)) sy sm completed)
  | _, _ => none

/-! ### Specification-side month ranges (used to state the enumeration claim) -/

/-- Strict lexicographic order on `(year, month)` pairs: the order on month
identifiers described by the spec. -/
def pairLt (a b : Nat × Nat) : Prop :=
  a.1 < b.1 ∨ (a.1 = b.1 ∧ a.2 < b.2)

instance (a b : Nat × Nat) : Decidable (pairLt a b) :=
  inferInstanceAs (Decidable (_ ∨ _))

/-- Follows the spec's words: "every month identifier from `startMonth`
inclusive up to (but excluding) `currentMonth`, in ascending order" — the
gap-free ascending list of `(year, month)` pairs from `(sy, sm)` inclusive
to `(cy, cm)` exclusive, built from consecutive linear month indices. -/
def specPendingPairs (sy sm cy cm : Nat) : List (Nat × Nat) :=
  (List.range' (sy * 12 + (sm - 1)) (cy * 12 + (cm - 1) - (sy * 12 + (sm - 1)))).map
    (fun i => (i / 12, i % 12 + 1))

/-! ### String ordering used by Python's `list.sort()` -/

/-- Python's string comparison: lexicographic on code points. -/
def charListLe : List Char → List Char → Bool
  | [], _ => true
  | _ :: _, [] => false
  | a :: as, b :: bs =>
    if a.toNat < b.toNat then true
    else if b.toNat < a.toNat then false
    else charListLe as bs

/-- Python `str <= str` (lexicographic on code points), as used by
`list.sort()` on the completed-month lists. -/
def strLe (a b : String) : Bool :=
  charListLe a.data b.data

/-! ### The completion ledger (`MonthlyBackupTracker`, lines 118-176) -/

/-- A top-level value of the backing store `exports/metadata.json`.  The two
keys owned by the tracker hold the serialized completed-months and
last-attempt maps; every other key holds an opaque external value of type
`V`. -/
inductive StoreVal (V : Type) where
  | ext : V → StoreVal V
  | completedVal : (String → List String) → StoreVal V
  | attemptsVal : (String → Option ℤ) → StoreVal V

/-- In-memory tracker state plus the current content of the backing store.
`completedMonths` models the dict `_completed_months` (a missing guild key
and an empty list are observably the same, since the source inserts `[]`
before using a missing key); `lastAttempts` models `_last_attempts`
(`.get(guild_id, None)`); `file` is the backing JSON file, `none` when the
file is absent or unparseable (both start `_save_metadata`'s merge from
`{}`). -/
structure MonthlyBackupTracker (V : Type) where
  completedMonths : String → List String
  lastAttempts : String → Option ℤ
  file : Option (String → Option (StoreVal V))

variable {V : Type}

/-- `get_completed_months` (lines 137-138): `dict.get(guild_id, [])`. -/
def MonthlyBackupTracker.get_completed_months (t : MonthlyBackupTracker V)
    (gid : String) : List String :=
  t.completedMonths gid

/-- `get_last_attempt` (lines 151-152): `dict.get(guild_id, None)`. -/
def MonthlyBackupTracker.get_last_attempt (t : MonthlyBackupTracker V)
    (gid : String) : Option ℤ :=
  t.lastAttempts gid

/-- `_save_metadata` (lines 158-176): re-read the backing store (an absent or
corrupted file yields `{}`), replace exactly the two keys
`completedMonthlyBackups` and `lastBackupAttempts` with the in-memory maps,
and write the merged object back. -/
def MonthlyBackupTracker.save_metadata (t : MonthlyBackupTracker V) :
    MonthlyBackupTracker V :=
  let metadata := t.file.getD (fun _ => none)
  { t with
    file := some (fun k =>
      if k = "completedMonthlyBackups" then some (StoreVal.completedVal t.completedMonths)
      else if k = "lastBackupAttempts" then some (StoreVal.attemptsVal t.lastAttempts)
      else metadata k) }

/-- `mark_month_completed` (lines 143-149): if the month is not already
recorded for the guild, append it and re-sort the guild's list (Python
`list.sort()`, ascending lexicographic); then persist. -/
def MonthlyBackupTracker.mark_month_completed (t : MonthlyBackupTracker V)
    (gid m : String) : MonthlyBackupTracker V :=
  let cur := t.completedMonths gid
  let completed' : String → List String :=
    if m ∈ cur then t.completedMonths
    else fun g =>
      if g = gid then List.insertionSort (fun a b => strLe a b = true) (cur ++ [m])
      else t.completedMonths g
  MonthlyBackupTracker.save_metadata { t with completedMonths := completed' }

/-- `set_last_attempt` (lines 154-156): unconditionally overwrite the guild's
timestamp, then persist. -/
def MonthlyBackupTracker.set_last_attempt (t : MonthlyBackupTracker V)
    (gid : String) (ts : ℤ) : MonthlyBackupTracker V :=
  MonthlyBackupTracker.save_metadata
    { t with lastAttempts := fun g => if g = gid then some ts else t.lastAttempts g }

/-- Apply a sequence of `mark_month_completed` calls, in order. -/
def applyMarks : List (String × String) → MonthlyBackupTracker V → MonthlyBackupTracker V
  | [], t => t
  | (g, m) :: rest, t => applyMarks rest (t.mark_month_completed g m)

/-! ### The scheduler (`CommandRunner`, lines 240-419) -/

/-- `guild['type']`: set by `Config` to `exportguild` or `exportdm`
(lines 46-49); `_export_month` builds a different command for each but the
control flow is identical. -/
inductive ExportType where
  | exportguild
  | exportdm
deriving DecidableEq

/-- One enabled guild from the configuration: the fields of the source's
guild dict that the scheduler reads.  `throttleHours` defaults to `0`
(line 51-52). -/
structure Guild where
  guildId : String
  guildName : String
  startDate : String
  throttleHours : ℤ
  gtype : ExportType

/-- The ambient world for one guild's processing: the wall clock captured at
line 264 (`now`), the current month from `get_current_month()` (line 276),
and per-month filesystem/subprocess observations used by `_export_month`:
whether `{month_dir}/.complete` exists, whether `month_dir` exists and
whether `os.listdir` finds it non-empty, whether `os.makedirs` succeeds,
the DiscordChatExporter exit status (`true` = exit code 0), and whether
writing the completion marker succeeds. -/
structure GuildEnv where
  now : ℤ
  currentMonth : String
  markerExists : String → Bool
  dirExists : String → Bool
  dirNonEmpty : String → Bool
  mkdirOk : String → Bool
  invokerSucceeds : String → Bool
  markerWriteOk : String → Bool

/-- What `_export_month` did for one month, for the run log. -/
inductive MonthAction where
  | skippedMarker
  | mkdirFailed
  | dryRun
  | invokedSuccess
  | invokedFailure
deriving DecidableEq

/-- Module constant `DRY_RUN = False` (line 17). -/
def DRY_RUN : Bool := false

/-- Result of `_export_month` for one month: the boolean return value, the
updated tracker, whether the completion marker was written, and which branch
ran (`action`; the subprocess is invoked exactly in the `invokedSuccess` and
`invokedFailure` cases). -/
structure MonthResult (V : Type) where
  success : Bool
  markerWritten : Bool
  action : MonthAction
  tracker : MonthlyBackupTracker V

/-- `_export_month` (lines 318-419).  In order: if the completion marker
exists, mark the month completed in the ledger and return `True` without
invoking the export; otherwise warn (log only, lines 341-343) when the
directory exists non-empty; `os.makedirs(..., exist_ok=True)` succeeds
whenever the directory already exists, and can only fail (`OSError`,
return `False`) otherwise; then, since `DRY_RUN` is `False`, run the
exporter: on exit code 0 mark the month completed in the ledger *before*
attempting to write the completion marker (a marker-write `IOError` is
only logged) and return `True`; on a non-zero exit code return `False`. -/
def CommandRunner.export_month (env : GuildEnv) (g : Guild) (m : String)
    (t : MonthlyBackupTracker V) : MonthResult V :=
  if env.markerExists m = true then
    { success := true, markerWritten := false, action := .skippedMarker,
      tracker := t.mark_month_completed g.guildId m }
  else if (env.dirExists m || env.mkdirOk m) = false then
    { success := false, markerWritten := false, action := .mkdirFailed, tracker := t }
  else if DRY_RUN = true then
    { success := false, markerWritten := false, action := .dryRun, tracker := t }
  else if env.invokerSucceeds m = true then
    { success := true, markerWritten := env.markerWriteOk m, action := .invokedSuccess,
      tracker := t.mark_month_completed g.guildId m }
  else
    { success := false, markerWritten := false, action := .invokedFailure, tracker := t }

/-- Accumulated result of the per-month loop (lines 288-298) for one guild:
final tracker, `months_backed_up`, `months_failed`, and the per-month log in
processing order. -/
structure MonthsResult (V : Type) where
  tracker : MonthlyBackupTracker V
  backedUp : Nat
  failed : Nat
  log : List (String × MonthAction)

/-- The per-month loop (lines 292-298): process the pending months in order,
threading the tracker; count a success or a failure for each month. -/
def CommandRunner.processMonths (env : GuildEnv) (g : Guild) :
    List String → MonthlyBackupTracker V → MonthsResult V
  | [], t => { tracker := t, backedUp := 0, failed := 0, log := [] }
  | m :: rest, t =>
    let r := CommandRunner.export_month env g m t
    let res := CommandRunner.processMonths env g rest r.tracker
    { tracker := res.tracker,
      backedUp := if r.success = true then res.backedUp + 1 else res.backedUp,
      failed := if r.success = true then res.failed else res.failed + 1,
      log := (m, r.action) :: res.log }

/-- The run-level state threaded through `CommandRunner.export`
(lines 256-258): the tracker plus the summary counters and a log of every
month attempt. -/
structure RunState (V : Type) where
  tracker : MonthlyBackupTracker V
  guildsProcessed : Nat
  guildsSkipped : Nat
  totalMonthsBackedUp : Nat
  log : List (String × String × MonthAction)

/-- The throttle check (lines 264-273): with no prior attempt the guild
always proceeds; otherwise it is skipped exactly when the elapsed time is
under the configured throttle.  The source compares
`(now - last).total_seconds() / 3600 < throttleHours`; over integer-second
timestamps this is exactly `now - last < throttleHours * 3600`. -/
def isThrottled (g : Guild) (env : GuildEnv) (t : MonthlyBackupTracker V) : Bool :=
  match t.get_last_attempt g.guildId with
  | none => false
  | some la => decide (env.now - la < g.throttleHours * 3600)

/-- Lines 276-278: the pending months for a guild.  `getD []` models the
fact that for an unparseable `startDate` Python would raise out of the whole
run; guild validation (lines 92-100) guarantees parsing succeeds for every
configured guild. -/
def pendingMonths (g : Guild) (env : GuildEnv) (t : MonthlyBackupTracker V) :
    List String :=
  (generate_months_to_backup g.startDate env.currentMonth
    (t.get_completed_months g.guildId)).getD []

/-- One iteration of the guild loop of `CommandRunner.export`
(lines 260-309): throttle check (skip counts the guild and touches nothing
else); empty pending list counts the guild as processed and moves on;
otherwise run the per-month loop, and only when at least one month was
handled successfully set the last-attempt timestamp to the `now` captured
before the loop and add the per-guild count to the run total. -/
def CommandRunner.processGuild (g : Guild) (env : GuildEnv) (st : RunState V) :
    RunState V :=
  if isThrottled g env st.tracker = true then
    { st with guildsSkipped := st.guildsSkipped + 1 }
  else
    let pending := pendingMonths g env st.tracker
    if pending = [] then
      { st with guildsProcessed := st.guildsProcessed + 1 }
    else
      let res := CommandRunner.processMonths env g pending st.tracker
      let t' :=
        if res.backedUp > 0 then res.tracker.set_last_attempt g.guildId env.now
        else res.tracker
      { tracker := t',
        guildsProcessed := st.guildsProcessed + 1,
        guildsSkipped := st.guildsSkipped,
        totalMonthsBackedUp :=
          st.totalMonthsBackedUp + (if res.backedUp > 0 then res.backedUp else 0),
        log := st.log ++ res.log.map (fun p => (g.guildId, p.1, p.2)) }

/-- The whole guild loop of `CommandRunner.export` over the enabled guilds,
each paired with its ambient environment (the wall clock and filesystem
state at the time that guild is processed). -/
def CommandRunner.exportRun : List (Guild × GuildEnv) → RunState V → RunState V
  | [], st => st
  | (g, env) :: rest, st => CommandRunner.exportRun rest (CommandRunner.processGuild g env st)

/-- Whether `_export_month` reports success for a month, as a function of the
environment only: a present completion marker, or a usable directory and a
successful (non-dry-run) invocation. -/
def monthSucceeds (env : GuildEnv) (m : String) : Bool :=
  env.markerExists m || ((env.dirExists m || env.mkdirOk m) && !DRY_RUN && env.invokerSucceeds m)

/-- Whether a `MonthAction` corresponds to actually invoking the exporter. -/
def MonthAction.invoked : MonthAction → Bool
  | .invokedSuccess => true
  | .invokedFailure => true
  | _ => false

/-! ### Concrete fixtures for the example runs -/

/-- A tracker in its first-run state: empty ledger, no backing file. -/
def trackerInit : MonthlyBackupTracker Unit :=
  { completedMonths := fun _ => [], lastAttempts := fun _ => none, file := none }

/-- Initial run state: fresh tracker, all counters zero. -/
def stInit : RunState Unit :=
  { tracker := trackerInit, guildsProcessed := 0, guildsSkipped := 0,
    totalMonthsBackedUp := 0, log := [] }

/-- A benign environment: no markers, no directories, mkdir and the exporter
succeed, marker writes succeed, current month 2024-02. -/
def envBase : GuildEnv :=
  { now := 0, currentMonth := "2024-02",
    markerExists := fun _ => false, dirExists := fun _ => false,
    dirNonEmpty := fun _ => false, mkdirOk := fun _ => true,
    invokerSucceeds := fun _ => true, markerWriteOk := fun _ => true }

/-- The guild of the end-to-end partial-failure scenario: start month
2024-01, no throttle. -/
def guildC5 : Guild :=
  { guildId := "g5", guildName := "G", startDate := "2024-01", throttleHours := 0,
    gtype := .exportguild }

/-- Environment for the partial-failure scenario: current month 2024-04,
exporter fails exactly for 2024-02. -/
def envC5 : GuildEnv :=
  { envBase with
    now := 5
    currentMonth := "2024-04"
    invokerSucceeds := fun m => !(m == "2024-02") }

/-- Guild for the marker-skip counting example. -/
def guildC6 : Guild :=
  { guildId := "g6", guildName := "G", startDate := "2024-01", throttleHours := 0,
    gtype := .exportguild }

/-- Environment for the marker-skip counting example: the only pending month
already has its completion marker on disk, and the exporter would fail if it
were ever invoked. -/
def envC6 : GuildEnv :=
  { envBase with markerExists := fun _ => true, invokerSucceeds := fun _ => false }

/-- A guild with a 24-hour throttle. -/
def guildThrottle : Guild :=
  { guildId := "gw", guildName := "G", startDate := "2024-01", throttleHours := 24,
    gtype := .exportguild }

/-- A run state whose tracker records a last attempt at time 0 for every
guild. -/
def stLast : RunState Unit :=
  { stInit with tracker := { trackerInit with lastAttempts := fun _ => some 0 } }

/-- A backing-store content with one external top-level key. -/
def fileW : String → Option (StoreVal Unit) :=
  fun k => if k = "extra" then some (StoreVal.ext ()) else none

/-- A tracker whose backing file holds `fileW`. -/
def trackerW : MonthlyBackupTracker Unit :=
  { trackerInit with file := some fileW }

/-- Environment in which every month's completion marker already exists. -/
def envMarker : GuildEnv :=
  { envBase with markerExists := fun _ => true }

/-- Environment in which every month's directory exists and is non-empty,
with no completion marker. -/
def envDirNonEmpty : GuildEnv :=
  { envBase with
    dirExists := fun _ => true
    dirNonEmpty := fun _ => true }

/-- Environment in which the exporter succeeds but writing the completion
marker fails. -/
def envMarkerFail : GuildEnv :=
  { envBase with markerWriteOk := fun _ => false }

/-- The backing-store entry a tracker's file holds at key `k` (`none` when
the file itself is absent). -/
def storeAt (t : MonthlyBackupTracker V) (k : String) : Option (Option (StoreVal V)) :=
  t.file.map (fun f => f k)

/-! ### Properties of the decimal rendering -/

theorem digitChar_toNat {k : Nat} (h : k < 10) : (Nat.digitChar k).toNat = 48 + k := by
  interval_cases k <;> decide

theorem digitsVal_append_digit (ds : List Char) (c : Char) :
    digitsVal (ds ++ [c]) = digitsVal ds * 10 + (c.toNat - 48) := by
  simp [digitsVal, List.foldl_append]

theorem natDigitsAux_val (fuel : Nat) : ∀ n, n < fuel → digitsVal (natDigitsAux fuel n) = n := by
  induction fuel with
  | zero => intro n h; exact absurd h (Nat.not_lt_zero n)
  | succ f ih =>
    intro n h
    by_cases h10 : n < 10
    · rw [natDigitsAux, if_pos h10]
      simp [digitsVal, digitChar_toNat h10]
    · rw [natDigitsAux, if_neg h10, digitsVal_append_digit, ih (n / 10) (by omega),
        digitChar_toNat (show n % 10 < 10 by omega)]
      omega

theorem natDigitsAux_ne_dash (fuel : Nat) :
    ∀ n, n < fuel → ∀ c ∈ natDigitsAux fuel n, c ≠ '-' := by
  induction fuel with
  | zero => intro n h; exact absurd h (Nat.not_lt_zero n)
  | succ f ih =>
    intro n h c hc
    by_cases h10 : n < 10
    · rw [natDigitsAux, if_pos h10] at hc
      simp only [List.mem_singleton] at hc
      subst hc
      intro hEq
      have h1 := digitChar_toNat h10
      rw [hEq] at h1
      have h2 : ('-').toNat = 45 := rfl
      omega
    · rw [natDigitsAux, if_neg h10] at hc
      rcases List.mem_append.mp hc with h1 | h2
      · exact ih (n / 10) (by omega) c h1
      · simp only [List.mem_singleton] at h2
        subst h2
        intro hEq
        have h1 := digitChar_toNat (show n % 10 < 10 by omega)
        rw [hEq] at h1
        have h2 : ('-').toNat = 45 := rfl
        omega

theorem padZeros_ne_dash (w n : Nat) : ∀ c ∈ padZeros w (natDigitsAux (n + 1) n), c ≠ '-' := by
  intro c hc
  rcases List.mem_append.mp hc with h1 | h2
  · have h0 : c = '0' := List.eq_of_mem_replicate h1
    subst h0
    decide
  · exact natDigitsAux_ne_dash (n + 1) n (Nat.lt_succ_self n) c h2

theorem digitsVal_replicate_zero (k : Nat) (cs : List Char) :
    digitsVal (List.replicate k '0' ++ cs) = digitsVal cs := by
  induction k with
  | zero => simp
  | succ j ih =>
    rw [List.replicate_succ, List.cons_append]
    exact ih

theorem digitsVal_padZeros (w : Nat) (cs : List Char) :
    digitsVal (padZeros w cs) = digitsVal cs :=
  digitsVal_replicate_zero _ _

theorem append_dash_inj : ∀ l1 l2 r1 r2 : List Char,
    (∀ c ∈ l1, c ≠ '-') → (∀ c ∈ l2, c ≠ '-') →
    l1 ++ '-' :: r1 = l2 ++ '-' :: r2 → l1 = l2 ∧ r1 = r2 := by
  intro l1
  induction l1 with
  | nil =>
    intro l2 r1 r2 _ h2 heq
    cases l2 with
    | nil => simpa using heq
    | cons b bs =>
      simp only [List.nil_append, List.cons_append, List.cons.injEq] at heq
      exact absurd heq.1.symm (h2 b (List.mem_cons_self b bs))
  | cons a as ih =>
    intro l2 r1 r2 h1 h2 heq
    cases l2 with
    | nil =>
      simp only [List.nil_append, List.cons_append, List.cons.injEq] at heq
      exact absurd heq.1 (h1 a (List.mem_cons_self a as))
    | cons b bs =>
      simp only [List.cons_append, List.cons.injEq] at heq
      obtain ⟨hab, htl⟩ := heq
      obtain ⟨has, hr⟩ := ih bs r1 r2 (fun c hc => h1 c (List.mem_cons_of_mem a hc))
        (fun c hc => h2 c (List.mem_cons_of_mem b hc)) htl
      subst hab
      subst has
      subst hr
      exact ⟨rfl, rfl⟩

theorem format_month_inj {y1 m1 y2 m2 : Nat}
    (h : format_month y1 m1 = format_month y2 m2) : y1 = y2 ∧ m1 = m2 := by
  have hdata : padZeros 4 (natDigitsAux (y1 + 1) y1) ++ '-' :: padZeros 2 (natDigitsAux (m1 + 1) m1)
      = padZeros 4 (natDigitsAux (y2 + 1) y2) ++ '-' :: padZeros 2 (natDigitsAux (m2 + 1) m2) := by
    have hd := congrArg String.data h
    simpa [format_month] using hd
  obtain ⟨hy, hm⟩ := append_dash_inj _ _ _ _ (padZeros_ne_dash 4 y1) (padZeros_ne_dash 4 y2) hdata
  constructor
  · have hv := congrArg digitsVal hy
    rwa [digitsVal_padZeros, digitsVal_padZeros, natDigitsAux_val _ _ (Nat.lt_succ_self _),
      natDigitsAux_val _ _ (Nat.lt_succ_self _)] at hv
  · have hv := congrArg digitsVal hm
    rwa [digitsVal_padZeros, digitsVal_padZeros, natDigitsAux_val _ _ (Nat.lt_succ_self _),
      natDigitsAux_val _ _ (Nat.lt_succ_self _)] at hv

theorem format_month_pair_inj : Function.Injective (fun p : Nat × Nat => format_month p.1 p.2) := by
  intro a b h
  obtain ⟨h1, h2⟩ := format_month_inj h
  exact Prod.ext h1 h2

/-! ### The enumeration loop refines the spec-side month range -/

theorem specPendingPairs_empty {sy sm cy cm : Nat}
    (h : cy * 12 + (cm - 1) ≤ sy * 12 + (sm - 1)) :
    specPendingPairs sy sm cy cm = [] := by
  rw [specPendingPairs, Nat.sub_eq_zero_of_le h]
  rfl

theorem specPendingPairs_cons {sy sm cy cm : Nat} (hsm1 : 1 ≤ sm) (hsm2 : sm ≤ 12)
    (hcm1 : 1 ≤ cm) (hcm2 : cm ≤ 12)
    (hlt : sy < cy ∨ (sy = cy ∧ sm < cm)) :
    specPendingPairs sy sm cy cm =
      (sy, sm) :: (if sm = 12 then specPendingPairs (sy + 1) 1 cy cm
                   else specPendingPairs sy (sm + 1) cy cm) := by
  have hidx : sy * 12 + (sm - 1) < cy * 12 + (cm - 1) := by omega
  rw [specPendingPairs,
    show cy * 12 + (cm - 1) - (sy * 12 + (sm - 1))
      = (cy * 12 + (cm - 1) - (sy * 12 + (sm - 1) + 1)) + 1 from by omega,
    List.range'_succ, List.map_cons,
    show (sy * 12 + (sm - 1)) / 12 = sy from by omega,
    show (sy * 12 + (sm - 1)) % 12 + 1 = sm from by omega]
  by_cases h12 : sm = 12
  · subst h12
    rw [if_pos rfl, specPendingPairs,
      show sy * 12 + (12 - 1) + 1 = (sy + 1) * 12 + (1 - 1) from by omega]
  · rw [if_neg h12, specPendingPairs,
      show sy * 12 + (sm - 1) + 1 = sy * 12 + (sm + 1 - 1) from by omega]

theorem mem_specPendingPairs {sy sm cy cm : Nat} (hsm1 : 1 ≤ sm) (hsm2 : sm ≤ 12)
    (hcm1 : 1 ≤ cm) (hcm2 : cm ≤ 12) (p : Nat × Nat) :
    p ∈ specPendingPairs sy sm cy cm ↔
      1 ≤ p.2 ∧ p.2 ≤ 12 ∧ ¬ pairLt p (sy, sm) ∧ pairLt p (cy, cm) := by
  obtain ⟨py, pm⟩ := p
  simp only [specPendingPairs, List.mem_map, List.mem_range'_1, pairLt]
  constructor
  · rintro ⟨i, ⟨hi1, hi2⟩, heq⟩
    injection heq with h1 h2
    omega
  · rintro ⟨hb1, hb2, hnl, hl⟩
    refine ⟨py * 12 + (pm - 1), ⟨by omega, by omega⟩, ?_⟩
    simp only [Prod.mk.injEq]
    omega

theorem pairwise_specPendingPairs (sy sm cy cm : Nat) :
    (specPendingPairs sy sm cy cm).Pairwise pairLt := by
  rw [specPendingPairs, List.range'_eq_map_range]
  have h1 := List.pairwise_lt_range (cy * 12 + (cm - 1) - (sy * 12 + (sm - 1)))
  have h2 := h1.map (fun i => sy * 12 + (sm - 1) + i)
    (fun a b (hab : a < b) => show _ + a < _ + b by omega)
  exact h2.map (fun i => (i / 12, i % 12 + 1))
    (fun a b (hab : a < b) => by simp only [pairLt]; omega)

theorem pairwise_pairLt_nodup {l : List (Nat × Nat)} (h : l.Pairwise pairLt) : l.Nodup :=
  h.imp (fun hab => by
    intro heq
    subst heq
    simp only [pairLt] at hab
    omega)

theorem genFromAux_spec (cy cm : Nat) (completed : List String) (hcm1 : 1 ≤ cm)
    (hcm2 : cm ≤ 12) :
    ∀ fuel y m, 1 ≤ m → m ≤ 12 → cy * 13 + cm - (y * 13 + m) ≤ fuel →
      genFromAux cy cm fuel y m completed =
        ((specPendingPairs y m cy cm).filter
          (fun p => !(decide (format_month p.1 p.2 ∈ completed)))).map
          (fun p => format_month p.1 p.2) := by
  intro fuel
  induction fuel with
  | zero =>
    intro y m hm1 hm2 hfuel
    rw [specPendingPairs_empty (by omega)]
    rfl
  | succ f ih =>
    intro y m hm1 hm2 hfuel
    by_cases hcond : y < cy ∨ (y = cy ∧ m < cm)
    · have hguard : (y < cy ∨ (y = cy ∧ m < cm)) ∧ m ≤ 12 := ⟨hcond, hm2⟩
      rw [specPendingPairs_cons hm1 hm2 hcm1 hcm2 hcond, List.filter_cons]
      have hstep : y * 13 + m < cy * 13 + cm := by omega
      have hrest : (if m = 12 then genFromAux cy cm f (y + 1) 1 completed
          else genFromAux cy cm f y (m + 1) completed) =
          ((if m = 12 then specPendingPairs (y + 1) 1 cy cm
            else specPendingPairs y (m + 1) cy cm).filter
            (fun p => !(decide (format_month p.1 p.2 ∈ completed)))).map
            (fun p => format_month p.1 p.2) := by
        by_cases h12 : m = 12
        · subst h12
          rw [if_pos rfl, if_pos rfl]
          exact ih (y + 1) 1 (by omega) (by omega) (by omega)
        · rw [if_neg h12, if_neg h12]
          exact ih y (m + 1) (by omega) (by omega) (by omega)
      by_cases hmem : format_month y m ∈ completed
      · rw [show genFromAux cy cm (f + 1) y m completed =
            (if m = 12 then genFromAux cy cm f (y + 1) 1 completed
             else genFromAux cy cm f y (m + 1) completed) from by
              simp only [genFromAux, if_pos hguard, if_pos hmem]]
        rw [hrest]
        simp [hmem]
      · rw [show genFromAux cy cm (f + 1) y m completed =
            format_month y m ::
              (if m = 12 then genFromAux cy cm f (y + 1) 1 completed
               else genFromAux cy cm f y (m + 1) completed) from by
              simp only [genFromAux, if_pos hguard, if_neg hmem]]
        rw [hrest]
        simp [hmem]
    · have hnot : ¬ ((y < cy ∨ (y = cy ∧ m < cm)) ∧ m ≤ 12) := fun hc => hcond hc.1
      rw [show genFromAux cy cm (f + 1) y m completed = [] from by
          simp only [genFromAux, if_neg hnot],
        specPendingPairs_empty (by omega)]
      rfl

theorem genFromAux_not_mem (cy cm : Nat) (completed : List String) :
    ∀ fuel y m x, x ∈ genFromAux cy cm fuel y m completed → x ∉ completed := by
  intro fuel
  induction fuel with
  | zero =>
    intro y m x hx
    simp only [genFromAux] at hx
    exact absurd hx (List.not_mem_nil x)
  | succ f ih =>
    intro y m x hx
    by_cases hguard : (y < cy ∨ (y = cy ∧ m < cm)) ∧ m ≤ 12
    · simp only [genFromAux, if_pos hguard] at hx
      by_cases hmem : format_month y m ∈ completed
      · rw [if_pos hmem] at hx
        by_cases h12 : m = 12
        · rw [if_pos h12] at hx
          exact ih _ _ _ hx
        · rw [if_neg h12] at hx
          exact ih _ _ _ hx
      · rw [if_neg hmem] at hx
        rcases List.mem_cons.mp hx with rfl | hx'
        · exact hmem
        · by_cases h12 : m = 12
          · rw [if_pos h12] at hx'
            exact ih _ _ _ hx'
          · rw [if_neg h12] at hx'
            exact ih _ _ _ hx'
    · simp only [genFromAux, if_neg hguard] at hx
      exact absurd hx (List.not_mem_nil x)

/-! ### Python string order: totality and transitivity -/

theorem charListLe_total : ∀ as bs : List Char,
    charListLe as bs = true ∨ charListLe bs as = true := by
  intro as
  induction as with
  | nil => intro bs; exact Or.inl rfl
  | cons a as ih =>
    intro bs
    cases bs with
    | nil => exact Or.inr rfl
    | cons b bs' =>
      by_cases h1 : a.toNat < b.toNat
      · left
        simp [charListLe, h1]
      · by_cases h2 : b.toNat < a.toNat
        · right
          simp [charListLe, h2]
        · rcases ih bs' with h | h
          · left
            simp [charListLe, h1, h2, h]
          · right
            simp [charListLe, h1, h2, h]

theorem charListLe_trans : ∀ as bs cs : List Char,
    charListLe as bs = true → charListLe bs cs = true → charListLe as cs = true := by
  intro as
  induction as with
  | nil => intro bs cs _ _; rfl
  | cons a as ih =>
    intro bs cs hab hbc
    cases bs with
    | nil => simp [charListLe] at hab
    | cons b bs' =>
      cases cs with
      | nil => simp [charListLe] at hbc
      | cons c cs' =>
        simp only [charListLe] at hab hbc ⊢
        by_cases hab1 : a.toNat < b.toNat
        · by_cases hbc1 : b.toNat < c.toNat
          · simp [show a.toNat < c.toNat by omega]
          · by_cases hbc2 : c.toNat < b.toNat
            · simp [hbc1, hbc2] at hbc
            · simp [show a.toNat < c.toNat by omega]
        · by_cases hab2 : b.toNat < a.toNat
          · simp [hab1, hab2] at hab
          · simp only [if_neg hab1, if_neg hab2] at hab
            by_cases hbc1 : b.toNat < c.toNat
            · simp [show a.toNat < c.toNat by omega]
            · by_cases hbc2 : c.toNat < b.toNat
              · simp [hbc1, hbc2] at hbc
              · simp only [if_neg hbc1, if_neg hbc2] at hbc
                simp only [if_neg (show ¬ a.toNat < c.toNat by omega),
                  if_neg (show ¬ c.toNat < a.toNat by omega)]
                exact ih bs' cs' hab hbc

instance : IsTotal String (fun a b => strLe a b = true) :=
  ⟨fun a b => charListLe_total a.data b.data⟩

instance : IsTrans String (fun a b => strLe a b = true) :=
  ⟨fun a b c => charListLe_trans a.data b.data c.data⟩

/-! ### Ledger helper lemmas -/

theorem mem_mark_month_completed (t : MonthlyBackupTracker V) (gid m : String) :
    m ∈ (t.mark_month_completed gid m).completedMonths gid := by
  by_cases hm : m ∈ t.completedMonths gid
  · simpa [MonthlyBackupTracker.mark_month_completed, MonthlyBackupTracker.save_metadata,
      if_pos hm] using hm
  · simp only [MonthlyBackupTracker.mark_month_completed, MonthlyBackupTracker.save_metadata,
      if_neg hm, if_true]
    exact ((List.perm_insertionSort _ _).mem_iff).mpr
      (List.mem_append.mpr (Or.inr (List.mem_singleton_self m)))

theorem mark_lastAttempts (t : MonthlyBackupTracker V) (gid m : String) :
    (t.mark_month_completed gid m).lastAttempts = t.lastAttempts := rfl

theorem export_month_lastAttempts (env : GuildEnv) (g : Guild) (m : String)
    (t : MonthlyBackupTracker V) :
    (CommandRunner.export_month env g m t).tracker.lastAttempts = t.lastAttempts := by
  cases hm : env.markerExists m <;>
    cases hd : (env.dirExists m || env.mkdirOk m) <;>
    cases hi : env.invokerSucceeds m <;>
    simp [CommandRunner.export_month, hm, hd, hi, DRY_RUN, mark_lastAttempts]

theorem processMonths_lastAttempts (env : GuildEnv) (g : Guild) :
    ∀ (months : List String) (t : MonthlyBackupTracker V),
      (CommandRunner.processMonths env g months t).tracker.lastAttempts = t.lastAttempts := by
  intro months
  induction months with
  | nil => intro t; rfl
  | cons m rest ih =>
    intro t
    simp only [CommandRunner.processMonths]
    rw [ih, export_month_lastAttempts]

theorem set_last_attempt_self (t : MonthlyBackupTracker V) (gid : String) (ts : ℤ) :
    (t.set_last_attempt gid ts).lastAttempts gid = some ts := by
  simp [MonthlyBackupTracker.set_last_attempt, MonthlyBackupTracker.save_metadata]

theorem export_month_success (env : GuildEnv) (g : Guild) (m : String)
    (t : MonthlyBackupTracker V) :
    (CommandRunner.export_month env g m t).success = monthSucceeds env m := by
  cases hm : env.markerExists m <;>
    cases hd : (env.dirExists m || env.mkdirOk m) <;>
    cases hi : env.invokerSucceeds m <;>
    simp [CommandRunner.export_month, monthSucceeds, hm, hd, hi, DRY_RUN]

theorem processMonths_counts (env : GuildEnv) (g : Guild) :
    ∀ (months : List String) (t : MonthlyBackupTracker V),
      (CommandRunner.processMonths env g months t).backedUp =
        (months.filter (fun m => monthSucceeds env m)).length ∧
      (CommandRunner.processMonths env g months t).failed =
        (months.filter (fun m => !(monthSucceeds env m))).length := by
  intro months
  induction months with
  | nil => intro t; exact ⟨rfl, rfl⟩
  | cons m rest ih =>
    intro t
    simp only [CommandRunner.processMonths, List.filter_cons]
    obtain ⟨ih1, ih2⟩ := ih (CommandRunner.export_month env g m t).tracker
    rw [export_month_success]
    cases hs : monthSucceeds env m <;> simp [ih1, ih2]

theorem generate_not_mem_completed (start cur : String) (completed L : List String)
    (hgen : generate_months_to_backup start cur completed = some L) :
    ∀ x ∈ L, x ∉ completed := by
  unfold generate_months_to_backup at hgen
  cases hps : parse_month start with
  | none => rw [hps] at hgen; simp at hgen
  | some ps =>
    cases hpc : parse_month cur with
    | none => rw [hps, hpc] at hgen; simp at hgen
    | some pc =>
      obtain ⟨sy, sm⟩ := ps
      obtain ⟨cy, cm⟩ := pc
      rw [hps, hpc] at hgen
      simp only [Option.some.injEq] at hgen
      subst hgen
      intro x hx
      exact genFromAux_not_mem cy cm completed _ sy sm x hx

theorem mark_preserves_sorted (t : MonthlyBackupTracker V) (gid m : String)
    (h : ∀ g, ((t.completedMonths g).Pairwise (fun a b => strLe a b = true)) ∧
      (t.completedMonths g).Nodup) :
    ∀ g, (((t.mark_month_completed gid m).completedMonths g).Pairwise
        (fun a b => strLe a b = true)) ∧
      ((t.mark_month_completed gid m).completedMonths g).Nodup := by
  intro g
  by_cases hm : m ∈ t.completedMonths gid
  · simp only [MonthlyBackupTracker.mark_month_completed, MonthlyBackupTracker.save_metadata,
      if_pos hm]
    exact h g
  · simp only [MonthlyBackupTracker.mark_month_completed, MonthlyBackupTracker.save_metadata,
      if_neg hm]
    by_cases hg : g = gid
    · rw [if_pos hg]
      constructor
      · exact List.sorted_insertionSort _ _
      · have hperm := List.perm_insertionSort (fun a b => strLe a b = true)
          (t.completedMonths gid ++ [m])
        have hnd : (t.completedMonths gid ++ [m]).Nodup := by
          simp [List.nodup_append, (h gid).2, hm]
        exact hperm.nodup_iff.mpr hnd
    · rw [if_neg hg]
      exact h g

theorem applyMarks_sorted (ops : List (String × String)) :
    ∀ (t : MonthlyBackupTracker V),
      (∀ g, ((t.completedMonths g).Pairwise (fun a b => strLe a b = true)) ∧
        (t.completedMonths g).Nodup) →
      ∀ g, (((applyMarks ops t).completedMonths g).Pairwise (fun a b => strLe a b = true)) ∧
        ((applyMarks ops t).completedMonths g).Nodup := by
  induction ops with
  | nil => intro t h; exact h
  | cons op rest ih =>
    intro t h
    obtain ⟨gid, m⟩ := op
    exact ih _ (mark_preserves_sorted t gid m h)

theorem processGuild_counts (g : Guild) (env : GuildEnv) (st : RunState V) :
    (CommandRunner.processGuild g env st).guildsProcessed
      = st.guildsProcessed + (if isThrottled g env st.tracker = true then 0 else 1) ∧
    (CommandRunner.processGuild g env st).guildsSkipped
      = st.guildsSkipped + (if isThrottled g env st.tracker = true then 1 else 0) := by
  by_cases ht : isThrottled g env st.tracker = true
  · simp [CommandRunner.processGuild, ht]
  · by_cases hp : pendingMonths g env st.tracker = []
    · simp [CommandRunner.processGuild, ht, hp]
    · simp [CommandRunner.processGuild, ht, hp]

theorem exportRun_counts : ∀ (runs : List (Guild × GuildEnv)) (st : RunState V),
    (CommandRunner.exportRun runs st).guildsProcessed
        + (CommandRunner.exportRun runs st).guildsSkipped
      = st.guildsProcessed + st.guildsSkipped + runs.length := by
  intro runs
  induction runs with
  | nil => intro st; simp [CommandRunner.exportRun]
  | cons pr rest ih =>
    intro st
    obtain ⟨g, env⟩ := pr
    simp only [CommandRunner.exportRun]
    rw [ih]
    obtain ⟨h1, h2⟩ := processGuild_counts g env st
    rw [h1, h2]
    by_cases ht : isThrottled g env st.tracker = true <;> simp [ht, List.length_cons] <;> omega

/-! ### The verified claims -/

/-- C1: for every start month and current month (valid `YYYY-MM` identifiers,
i.e. strings parsing to `(year, month)` with `1 ≤ month ≤ 12`) and every
completed set, `generate_months_to_backup` returns exactly the month
identifiers from the start month inclusive up to but excluding the current
month — the image of the gap-free ascending pair range `specPendingPairs` —
omitting exactly those identifiers present in the completed set; the
underlying pair range is strictly ascending with no gaps (membership is
exactly the interval condition) or duplicates, the returned list of
identifier strings has no duplicates, and whenever the start month is
greater than or equal to the current month the result is empty. -/
theorem generate_months_pending_spec (start cur : String) (completed : List String)
    (sy sm cy cm : Nat)
    (hs : parse_month start = some (sy, sm)) (hc : parse_month cur = some (cy, cm))
    (hsm1 : 1 ≤ sm) (hsm2 : sm ≤ 12) (hcm1 : 1 ≤ cm) (hcm2 : cm ≤ 12) :
    ∃ L, generate_months_to_backup start cur completed = some L ∧
      L = ((specPendingPairs sy sm cy cm).filter
            (fun p => !(decide (format_month p.1 p.2 ∈ completed)))).map
            (fun p => format_month p.1 p.2) ∧
      (∀ p : Nat × Nat, p ∈ specPendingPairs sy sm cy cm ↔
        (1 ≤ p.2 ∧ p.2 ≤ 12 ∧ ¬ pairLt p (sy, sm) ∧ pairLt p (cy, cm))) ∧
      (specPendingPairs sy sm cy cm).Pairwise pairLt ∧
      L.Nodup ∧
      (¬ pairLt (sy, sm) (cy, cm) → L = []) := by
  have hspec := genFromAux_spec cy cm completed hcm1 hcm2
    (cy * 13 + cm - (sy * 13 + sm)) sy sm hsm1 hsm2 (le_refl _)
  refine ⟨genFromAux cy cm (cy * 13 + cm - (sy * 13 + sm)) sy sm completed,
    ?_, hspec, mem_specPendingPairs hsm1 hsm2 hcm1 hcm2, pairwise_specPendingPairs sy sm cy cm,
    ?_, ?_⟩
  · simp only [generate_months_to_backup, hs, hc]
  · rw [hspec]
    have hsub : ((specPendingPairs sy sm cy cm).filter
        (fun p => !(decide (format_month p.1 p.2 ∈ completed)))).Pairwise pairLt :=
      (pairwise_specPendingPairs sy sm cy cm).sublist (List.filter_sublist _)
    exact (pairwise_pairLt_nodup hsub).map format_month_pair_inj
  · intro hge
    rw [hspec, specPendingPairs_empty (by
      simp only [pairLt, not_or, not_and, not_lt] at hge
      omega)]
    rfl

/-- Witness for the C1 theorem at concrete inputs, including a December
rollover and a filtered-out completed month. -/
theorem generate_months_pending_spec_witness :
    (parse_month "2024-11" = some (2024, 11) ∧ parse_month "2025-02" = some (2025, 2)) ∧
    generate_months_to_backup "2024-11" "2025-02" ["2024-12"] =
      some (((specPendingPairs 2024 11 2025 2).filter
        (fun p => !(decide (format_month p.1 p.2 ∈ ["2024-12"])))).map
        (fun p => format_month p.1 p.2)) ∧
    specPendingPairs 2024 11 2025 2 = [(2024, 11), (2024, 12), (2025, 1)] ∧
    generate_months_to_backup "2024-11" "2025-02" ["2024-12"] =
      some ["2024-11", "2025-01"] ∧
    (specPendingPairs 2024 11 2025 2).Pairwise pairLt := by
  obtain ⟨L, hgen, hL, hmem, hpw, hnd, hempty⟩ :=
    generate_months_pending_spec "2024-11" "2025-02" ["2024-12"] 2024 11 2025 2
      (by decide) (by decide) (by decide) (by decide) (by decide) (by decide)
  refine ⟨⟨by decide, by decide⟩, ?_, by decide, by decide, hpw⟩
  rw [hgen, hL]

/-- C2: when the completion marker for a month exists, `_export_month` does
not invoke the export at all (its action is the marker skip, which is not an
invocation), records the month as completed in the ledger, and reports the
month as handled successfully; when the directory exists non-empty without a
marker, the export is invoked (re-run) for that month. -/
theorem export_month_marker_spec (env : GuildEnv) (g : Guild) (m : String)
    (t : MonthlyBackupTracker V) :
    (env.markerExists m = true →
      CommandRunner.export_month env g m t =
        { success := true, markerWritten := false, action := MonthAction.skippedMarker,
          tracker := t.mark_month_completed g.guildId m } ∧
      (CommandRunner.export_month env g m t).action.invoked = false ∧
      (CommandRunner.export_month env g m t).success = true ∧
      m ∈ (CommandRunner.export_month env g m t).tracker.completedMonths g.guildId) ∧
    (env.markerExists m = false → env.dirExists m = true → env.dirNonEmpty m = true →
      (CommandRunner.export_month env g m t).action.invoked = true) := by
  constructor
  · intro hm
    have he : CommandRunner.export_month env g m t =
        { success := true, markerWritten := false, action := MonthAction.skippedMarker,
          tracker := t.mark_month_completed g.guildId m } := by
      simp [CommandRunner.export_month, hm]
    refine ⟨he, ?_, ?_, ?_⟩
    · rw [he]
      rfl
    · rw [he]
    · rw [he]
      exact mem_mark_month_completed t g.guildId m
  · intro hm hd _
    cases hi : env.invokerSucceeds m <;>
      simp [CommandRunner.export_month, hm, hd, hi, DRY_RUN, MonthAction.invoked]

/-- Witness for the C2 theorem: a marker skip on one environment and a
re-run into an existing non-empty directory on another. -/
theorem export_month_marker_spec_witness :
    envMarker.markerExists "2024-01" = true ∧
    CommandRunner.export_month envMarker guildC5 "2024-01" trackerInit =
      { success := true, markerWritten := false, action := MonthAction.skippedMarker,
        tracker := trackerInit.mark_month_completed "g5" "2024-01" } ∧
    (CommandRunner.export_month envMarker guildC5 "2024-01" trackerInit).action.invoked
      = false ∧
    "2024-01" ∈ (CommandRunner.export_month envMarker guildC5 "2024-01"
      trackerInit).tracker.completedMonths "g5" ∧
    envDirNonEmpty.markerExists "2024-01" = false ∧
    envDirNonEmpty.dirNonEmpty "2024-01" = true ∧
    (CommandRunner.export_month envDirNonEmpty guildC5 "2024-01" trackerInit).action.invoked
      = true := by
  have h1 := (export_month_marker_spec envMarker guildC5 "2024-01" trackerInit).1 (by decide)
  have h2 := (export_month_marker_spec envDirNonEmpty guildC5 "2024-01" trackerInit).2
    (by decide) (by decide) (by decide)
  exact ⟨by decide, h1.1, h1.2.1, h1.2.2.2, by decide, by decide, h2⟩

/-- C3: a source with no recorded last attempt is never throttled; with a
recorded last attempt it is throttled exactly when the elapsed hours (the
real-arithmetic quotient `(now - last)/3600`, stated over `ℚ`) are strictly
less than the configured throttle hours; a throttled source only has its
skip counter incremented — tracker (ledger and attempt timestamps), log and
the other counters are untouched and no months are attempted; a
non-throttled source is counted as processed, not skipped. -/
theorem throttle_spec (g : Guild) (env : GuildEnv) (st : RunState V) :
    (st.tracker.get_last_attempt g.guildId = none →
      isThrottled g env st.tracker = false) ∧
    (∀ la : ℤ, st.tracker.get_last_attempt g.guildId = some la →
      (isThrottled g env st.tracker = true ↔
        ((env.now - la : ℤ) : ℚ) / 3600 < (g.throttleHours : ℚ))) ∧
    (isThrottled g env st.tracker = true →
      CommandRunner.processGuild g env st =
        { st with guildsSkipped := st.guildsSkipped + 1 }) ∧
    (isThrottled g env st.tracker = false →
      (CommandRunner.processGuild g env st).guildsSkipped = st.guildsSkipped ∧
      (CommandRunner.processGuild g env st).guildsProcessed = st.guildsProcessed + 1) := by
  refine ⟨?_, ?_, ?_, ?_⟩
  · intro h
    simp [isThrottled, h]
  · intro la hla
    simp only [isThrottled, hla, decide_eq_true_eq]
    rw [div_lt_iff₀ (by norm_num : (0:ℚ) < 3600),
      show (g.throttleHours : ℚ) * 3600 = ((g.throttleHours * 3600 : ℤ) : ℚ) from by
        push_cast
        ring]
    exact Int.cast_lt.symm
  · intro ht
    simp [CommandRunner.processGuild, ht]
  · intro ht
    by_cases hp : pendingMonths g env st.tracker = [] <;>
      simp [CommandRunner.processGuild, ht, hp]

/-- Witness for the C3 theorem: with a 24-hour throttle, a last attempt 10
hours ago is skipped (only the skip counter changes) and a last attempt 25
hours ago proceeds. -/
theorem throttle_spec_witness :
    isThrottled guildThrottle { envBase with now := 36000 } stLast.tracker = true ∧
    CommandRunner.processGuild guildThrottle { envBase with now := 36000 } stLast =
      { stLast with guildsSkipped := stLast.guildsSkipped + 1 } ∧
    isThrottled guildThrottle { envBase with now := 90000 } stLast.tracker = false ∧
    (CommandRunner.processGuild guildThrottle { envBase with now := 90000 }
      stLast).guildsProcessed = stLast.guildsProcessed + 1 := by
  refine ⟨by decide, ?_, by decide, ?_⟩
  · exact (throttle_spec guildThrottle { envBase with now := 36000 } stLast).2.2.1 (by decide)
  · exact ((throttle_spec guildThrottle { envBase with now := 90000 } stLast).2.2.2
      (by decide)).2

/-- C4: a source's last-attempt timestamp is overwritten exactly when the
source was not throttled and at least one month of its pending list was
handled successfully in this run, and the value written is `env.now`, the
timestamp captured at the start of the source's processing (before the
per-month loop); otherwise — throttled, empty pending list, or every month
attempt failed — the timestamp is unchanged. -/
theorem attempt_update_spec (g : Guild) (env : GuildEnv) (st : RunState V) :
    (CommandRunner.processGuild g env st).tracker.get_last_attempt g.guildId =
      if isThrottled g env st.tracker = false ∧
          0 < (CommandRunner.processMonths env g (pendingMonths g env st.tracker)
            st.tracker).backedUp
      then some env.now
      else st.tracker.get_last_attempt g.guildId := by
  by_cases ht : isThrottled g env st.tracker = true
  · rw [if_neg (by simp [ht])]
    simp [CommandRunner.processGuild, ht]
  · have ht' : isThrottled g env st.tracker = false := by
      cases h : isThrottled g env st.tracker
      · rfl
      · exact absurd h ht
    simp only [CommandRunner.processGuild]
    rw [if_neg ht]
    by_cases hp : pendingMonths g env st.tracker = []
    · have hb : (CommandRunner.processMonths env g (pendingMonths g env st.tracker)
          st.tracker).backedUp = 0 := by
        rw [hp]
        rfl
      rw [if_pos hp, if_neg (by simp [hb])]
    · rw [if_neg hp]
      by_cases hb : 0 < (CommandRunner.processMonths env g (pendingMonths g env st.tracker)
          st.tracker).backedUp
      · rw [if_pos (show isThrottled g env st.tracker = false ∧
            0 < (CommandRunner.processMonths env g (pendingMonths g env st.tracker)
              st.tracker).backedUp from ⟨ht', hb⟩)]
        rw [if_pos hb]
        exact set_last_attempt_self _ _ _
      · rw [if_neg (show ¬ (isThrottled g env st.tracker = false ∧
            0 < (CommandRunner.processMonths env g (pendingMonths g env st.tracker)
              st.tracker).backedUp) from fun hcon => hb hcon.2)]
        rw [if_neg hb]
        exact congrFun (processMonths_lastAttempts env g _ st.tracker) g.guildId

/-- C5: end-to-end partial-failure scenario — start month 2024-01, current
month 2024-04, empty completed set: the scheduler attempts 2024-01,
2024-02, 2024-03 in that order; the exporter fails for 2024-02 and succeeds
for the other two; the final completed set for the source is exactly
["2024-01", "2024-03"], the per-month loop reports 1 month failed and 2
succeeded, the run total counts 2 months, and the last-attempt timestamp is
updated to the captured start-of-processing time. -/
theorem partial_failure_scenario_spec :
    pendingMonths guildC5 envC5 stInit.tracker = ["2024-01", "2024-02", "2024-03"] ∧
    (CommandRunner.processGuild guildC5 envC5 stInit).log =
      [("g5", "2024-01", MonthAction.invokedSuccess),
       ("g5", "2024-02", MonthAction.invokedFailure),
       ("g5", "2024-03", MonthAction.invokedSuccess)] ∧
    (CommandRunner.processGuild guildC5 envC5 stInit).tracker.completedMonths "g5" =
      ["2024-01", "2024-03"] ∧
    (CommandRunner.processMonths envC5 guildC5 ["2024-01", "2024-02", "2024-03"]
      stInit.tracker).backedUp = 2 ∧
    (CommandRunner.processMonths envC5 guildC5 ["2024-01", "2024-02", "2024-03"]
      stInit.tracker).failed = 1 ∧
    (CommandRunner.processGuild guildC5 envC5 stInit).totalMonthsBackedUp = 2 ∧
    (CommandRunner.processGuild guildC5 envC5 stInit).tracker.get_last_attempt "g5" =
      some 5 := by decide

/-- C6 (counterexample): a month that is pending (absent from the ledger)
but whose completion marker already exists on disk is counted in the run's
"months backed up" total: here the only pending month 2024-01 is handled
via the marker-skip branch — the exporter is never invoked (it is even
configured to fail) — yet `totalMonthsBackedUp` rises from 0 to 1,
contradicting the claim that a marker-skipped month does not increment the
count. -/
theorem marker_skip_count_cex :
    envC6.invokerSucceeds "2024-01" = false ∧
    pendingMonths guildC6 envC6 stInit.tracker = ["2024-01"] ∧
    (CommandRunner.processGuild guildC6 envC6 stInit).log =
      [("g6", "2024-01", MonthAction.skippedMarker)] ∧
    MonthAction.skippedMarker.invoked = false ∧
    (CommandRunner.processGuild guildC6 envC6 stInit).totalMonthsBackedUp = 1 := by decide

/-- C6 (amended): the per-month success counter counts exactly the months
whose `_export_month` call reports success — those with an existing
completion marker **or** a usable directory and a successful invocation
(`monthSucceeds`); failed months are exactly the rest; and the run total
grows by the per-guild success count (0 for a throttled guild).  A
marker-skipped month therefore does increment the count, while failed
months never do. -/
theorem months_count_spec (g : Guild) (env : GuildEnv) (months : List String)
    (t : MonthlyBackupTracker V) (st : RunState V) :
    (CommandRunner.processMonths env g months t).backedUp =
      (months.filter (fun m => monthSucceeds env m)).length ∧
    (CommandRunner.processMonths env g months t).failed =
      (months.filter (fun m => !(monthSucceeds env m))).length ∧
    (CommandRunner.processGuild g env st).totalMonthsBackedUp =
      st.totalMonthsBackedUp +
        (if isThrottled g env st.tracker = true then 0
         else (CommandRunner.processMonths env g (pendingMonths g env st.tracker)
           st.tracker).backedUp) := by
  refine ⟨(processMonths_counts env g months t).1, (processMonths_counts env g months t).2, ?_⟩
  by_cases ht : isThrottled g env st.tracker = true
  · simp [CommandRunner.processGuild, ht]
  · have ht' : isThrottled g env st.tracker = false := by
      cases h : isThrottled g env st.tracker
      · rfl
      · exact absurd h ht
    by_cases hp : pendingMonths g env st.tracker = []
    · simp [CommandRunner.processGuild, ht, ht', hp, CommandRunner.processMonths]
    · simp only [CommandRunner.processGuild]
      rw [if_neg ht, if_neg hp]
      rw [show (if isThrottled g env st.tracker = true then 0
          else (CommandRunner.processMonths env g (pendingMonths g env st.tracker)
            st.tracker).backedUp) =
          (CommandRunner.processMonths env g (pendingMonths g env st.tracker)
            st.tracker).backedUp from by rw [if_neg ht]]
      by_cases hb : (CommandRunner.processMonths env g (pendingMonths g env st.tracker)
          st.tracker).backedUp > 0
      · simp [hb]
      · have hb0 : (CommandRunner.processMonths env g (pendingMonths g env st.tracker)
            st.tracker).backedUp = 0 := by omega
        rw [hb0]
        simp

/-- C7: marking a month completed is idempotent — a second identical call
leaves the completed maps unchanged — and after any sequence of
`mark_month_completed` calls starting from an empty completed map, every
source's completed list is sorted ascending in Python's string order and
contains each month identifier at most once. -/
theorem mark_month_completed_idem_sorted_spec :
    (∀ (W : Type) (t : MonthlyBackupTracker W) (gid m : String),
      ((t.mark_month_completed gid m).mark_month_completed gid m).completedMonths =
        (t.mark_month_completed gid m).completedMonths) ∧
    (∀ (W : Type) (ops : List (String × String)) (t0 : MonthlyBackupTracker W) (g : String),
      ((applyMarks ops { t0 with completedMonths := fun _ => [] }).completedMonths g).Pairwise
        (fun a b => strLe a b = true) ∧
      ((applyMarks ops { t0 with completedMonths := fun _ => [] }).completedMonths g).Nodup) := by
  constructor
  · intro W t gid m
    have hm := mem_mark_month_completed t gid m
    set t1 := t.mark_month_completed gid m with ht1
    simp only [MonthlyBackupTracker.mark_month_completed, MonthlyBackupTracker.save_metadata,
      hm, if_true]
  · intro W ops t0 g
    refine applyMarks_sorted ops _ ?_ g
    intro g'
    exact ⟨List.Pairwise.nil, List.nodup_nil⟩

/-- C8: every ledger persist is a read-merge-write — after either mutating
operation (`mark_month_completed`, `set_last_attempt`) on a tracker whose
backing store holds `f`, the written store agrees with `f` on every key
other than the two owned by the ledger, and holds the updated in-memory
maps at those two keys. -/
theorem save_metadata_frame_spec (t : MonthlyBackupTracker V) (gid m : String) (ts : ℤ)
    (f : String → Option (StoreVal V)) (k : String)
    (hf : t.file = some f)
    (h1 : k ≠ "completedMonthlyBackups") (h2 : k ≠ "lastBackupAttempts") :
    (∃ f1, (t.mark_month_completed gid m).file = some f1 ∧
      f1 k = f k ∧
      f1 "completedMonthlyBackups" =
        some (StoreVal.completedVal ((t.mark_month_completed gid m).completedMonths)) ∧
      f1 "lastBackupAttempts" = some (StoreVal.attemptsVal t.lastAttempts)) ∧
    (∃ f2, (t.set_last_attempt gid ts).file = some f2 ∧
      f2 k = f k ∧
      f2 "lastBackupAttempts" =
        some (StoreVal.attemptsVal ((t.set_last_attempt gid ts).lastAttempts))) := by
  constructor
  · refine ⟨_, rfl, ?_, ?_, ?_⟩
    · simp [MonthlyBackupTracker.mark_month_completed, MonthlyBackupTracker.save_metadata,
        hf, h1, h2]
    · simp [MonthlyBackupTracker.mark_month_completed, MonthlyBackupTracker.save_metadata]
    · simp [MonthlyBackupTracker.mark_month_completed, MonthlyBackupTracker.save_metadata]
  · refine ⟨_, rfl, ?_, ?_⟩
    · simp [MonthlyBackupTracker.set_last_attempt, MonthlyBackupTracker.save_metadata,
        hf, h1, h2]
    · simp [MonthlyBackupTracker.set_last_attempt, MonthlyBackupTracker.save_metadata]

/-- Witness for the C8 theorem: on a store with an external key `extra`,
both mutating operations leave that key's entry unchanged. -/
theorem save_metadata_frame_spec_witness :
    trackerW.file = some fileW ∧
    fileW "extra" = some (StoreVal.ext ()) ∧
    storeAt (trackerW.mark_month_completed "g" "2024-01") "extra" = some (fileW "extra") ∧
    storeAt (trackerW.set_last_attempt "g" 7) "extra" = some (fileW "extra") := by
  obtain ⟨⟨f1, hfile1, hk1, _, _⟩, ⟨f2, hfile2, hk2, _⟩⟩ :=
    save_metadata_frame_spec trackerW "g" "2024-01" 7 fileW "extra" rfl
      (by decide) (by decide)
  refine ⟨rfl, rfl, ?_, ?_⟩
  · simp only [storeAt, hfile1, Option.map_some']
    rw [hk1]
  · simp only [storeAt, hfile2, Option.map_some']
    rw [hk2]

/-- C9: when the exporter succeeds for a month but writing the completion
marker fails, the month is nevertheless recorded as completed in the
ledger (the ledger write is not conditioned on the marker write, which
comes after it) and the month is reported as a success with no marker
written; on any later enumeration, a month present in the completed set is
never in the pending list, so a ledger-complete marker-absent month is not
re-exported. -/
theorem marker_write_failure_spec (env : GuildEnv) (g : Guild) (m start cur : String)
    (t : MonthlyBackupTracker V) (L : List String)
    (h1 : env.markerExists m = false) (h2 : (env.dirExists m || env.mkdirOk m) = true)
    (h3 : env.invokerSucceeds m = true) (h4 : env.markerWriteOk m = false) :
    (CommandRunner.export_month env g m t).success = true ∧
    (CommandRunner.export_month env g m t).markerWritten = false ∧
    m ∈ (CommandRunner.export_month env g m t).tracker.completedMonths g.guildId ∧
    (generate_months_to_backup start cur
        ((CommandRunner.export_month env g m t).tracker.get_completed_months g.guildId)
        = some L →
      m ∉ L) := by
  have he : CommandRunner.export_month env g m t =
      { success := true, markerWritten := env.markerWriteOk m,
        action := MonthAction.invokedSuccess,
        tracker := t.mark_month_completed g.guildId m } := by
    simp [CommandRunner.export_month, h1, h2, h3, DRY_RUN]
  refine ⟨by rw [he], by rw [he]; exact h4, ?_, ?_⟩
  · rw [he]
    exact mem_mark_month_completed t g.guildId m
  · intro hgen hmL
    exact absurd
      (show m ∈ (CommandRunner.export_month env g m t).tracker.get_completed_months g.guildId
        from by rw [he]; exact mem_mark_month_completed t g.guildId m)
      (generate_not_mem_completed start cur _ L hgen m hmL)

/-- Witness for the C9 theorem: exporter success with a failing marker
write still records the month and reports success, and the recorded month
is excluded from the next enumeration. -/
theorem marker_write_failure_spec_witness :
    (envMarkerFail.markerExists "2024-01" = false ∧
      (envMarkerFail.dirExists "2024-01" || envMarkerFail.mkdirOk "2024-01") = true ∧
      envMarkerFail.invokerSucceeds "2024-01" = true ∧
      envMarkerFail.markerWriteOk "2024-01" = false) ∧
    (CommandRunner.export_month envMarkerFail guildC5 "2024-01" trackerInit).success = true ∧
    (CommandRunner.export_month envMarkerFail guildC5 "2024-01" trackerInit).markerWritten
      = false ∧
    "2024-01" ∈ (CommandRunner.export_month envMarkerFail guildC5 "2024-01"
      trackerInit).tracker.completedMonths "g5" ∧
    generate_months_to_backup "2024-01" "2024-03"
      ((CommandRunner.export_month envMarkerFail guildC5 "2024-01"
        trackerInit).tracker.get_completed_months "g5") = some ["2024-02"] ∧
    "2024-01" ∉ (["2024-02"] : List String) := by
  have h := marker_write_failure_spec envMarkerFail guildC5 "2024-01" "2024-01" "2024-03"
    trackerInit ["2024-02"] (by decide) (by decide) (by decide) (by decide)
  exact ⟨⟨by decide, by decide, by decide, by decide⟩, h.1, h.2.1, h.2.2.1, by decide,
    h.2.2.2 (by decide)⟩

/-- C10: over any run, each guild is counted exactly once — the processed
and skipped counters together grow by exactly the number of guilds, and per
guild the processed counter grows by one exactly when the guild is not
throttled (regardless of an empty pending list or failing months) while the
skipped counter grows by one exactly when it is throttled. -/
theorem summary_counts_spec (runs : List (Guild × GuildEnv)) (st : RunState V)
    (g : Guild) (env : GuildEnv) :
    ((CommandRunner.exportRun runs st).guildsProcessed
        + (CommandRunner.exportRun runs st).guildsSkipped
      = st.guildsProcessed + st.guildsSkipped + runs.length) ∧
    ((CommandRunner.processGuild g env st).guildsProcessed
      = st.guildsProcessed + (if isThrottled g env st.tracker = true then 0 else 1)) ∧
    ((CommandRunner.processGuild g env st).guildsSkipped
      = st.guildsSkipped + (if isThrottled g env st.tracker = true then 1 else 0)) :=
  ⟨exportRun_counts runs st, (processGuild_counts g env st).1, (processGuild_counts g env st).2⟩
